import Mathlib

/-!
Shallow embedding of the `scrab.py` news-feed pipeline
(text normalization, date normalization, language detection, feed
parsing, dedup writers, summary reporter), with theorems checking the
specification's claims against the code.
-/

namespace WebScraper

/-! ## Text normalization (`clean_text`, src lines 58-64)

`clean_text` strips the input, collapses whitespace runs
(`re.sub(r"\s+", " ", ...)`), then replaces each run of non-ASCII
characters with one space (`re.sub(r"[^\x00-\x7F]+", " ", ...)`).
-/

/-- Python's whitespace set (`Py_UNICODE_ISSPACE`), used both by
`str.strip()` and by the regex class `\s` on `str` patterns. -/
def pyIsSpace (c : Char) : Bool :=
  let n := c.toNat
  (9 ≤ n && n ≤ 13) || (28 ≤ n && n ≤ 32) || n == 133 || n == 160 ||
  n == 5760 || (8192 ≤ n && n ≤ 8202) || n == 8232 || n == 8233 ||
  n == 8239 || n == 8287 || n == 12288

/-- The character class `[^\x00-\x7F]` of the second substitution:
code points above 127. -/
def nonAscii (c : Char) : Bool := 127 < c.toNat

/-- `re.sub` of a pattern `X+` by a single space: each maximal run of
characters satisfying `p` becomes one `' '`. The flag records whether
the scan is currently inside a run that already emitted its space. -/
def subRuns (p : Char → Bool) : Bool → List Char → List Char
  | _, [] => []
  | inRun, c :: rest =>
    if p c then
      (if inRun then [] else [' ']) ++ subRuns p true rest
    else
      c :: subRuns p false rest

/-- Python `str.strip()`: drop `pyIsSpace` characters from both ends. -/
def pyStrip (l : List Char) : List Char :=
  (((l.dropWhile pyIsSpace).reverse.dropWhile pyIsSpace)).reverse

/-- `clean_text` (src lines 58-64); `if not text` is the Python
falsiness test, true exactly for the empty string. -/
def clean_text (s : String) : String :=
  if s = "" then "" else
  let collapsed := subRuns pyIsSpace false (pyStrip s.data)
  ⟨subRuns nonAscii false collapsed⟩

/-! ## Language detection (`detect_language`, src lines 66-71)

The underlying detector is the third-party `langdetect` library, whose
code is not part of this repository; only the wrapper and the seed
assignment (`DetectorFactory.seed = 0`, src line 23) are. -/

/-- Modelled from the spec: the third-party `langdetect` detector used
by `detect_language`.  Its classification consults the process PRNG
unless `DetectorFactory.seed` has been assigned, in which case the
result depends only on the text; the repository's code is not the
detector itself, so the classification rule here is a stand-in, while
the seed/rng dependence follows the spec's determinism contract.
Failure on empty or letterless text is an exception, modelled as
`none`. -/
def langdetect_detect (seed : Option Nat) (rng : Nat) (text : String) : Option String :=
  if text.data.all (fun c => !c.isAlpha) then none
  else
    let salt := match seed with
      | some s => s
      | none => rng
    some (["en", "fr", "de", "es"].getD ((text.length + salt) % 4) "en")

/-- `DetectorFactory.seed = 0` (src line 23): the seed is pinned for
the whole run. -/
def detectorSeed : Option Nat := some 0

/-- `detect_language` (src lines 66-71): returns the detector's answer
and catches every detector exception, substituting `"unknown"`.  `rng`
is the ambient process randomness the pinned seed shields against. -/
def detect_language (rng : Nat) (text : String) : String :=
  match langdetect_detect detectorSeed rng text with
  | some code => code
  | none => "unknown"

/-! ## Date normalization (src lines 85-89)

`datetime.strptime(raw, "%a, %d %b %Y %H:%M:%S %z").strftime("%Y-%m-%d %H:%M:%S")`
guarded by the `"Unknown"` sentinel and `except (ValueError, TypeError)`.
The parser below mirrors CPython's `_strptime` regex for this format:
each directive's alternation, `\s+` for format whitespace, a prefix
match plus the "unconverted data remains" check, and the `datetime`
constructor's range validation. -/

structure PyDateTime where
  year : Nat
  month : Nat
  day : Nat
  hour : Nat
  minute : Nat
  second : Nat
deriving DecidableEq

/-- The regex class `\d`, modelled as the ASCII digits (CPython's `\d`
on `str` also matches other Unicode decimal digits, which `int()` then
converts the same way; restricting to ASCII only shrinks the success
set on exotic inputs, it changes no outcome shape). -/
def isDigit (c : Char) : Bool := 48 ≤ c.toNat && c.toNat ≤ 57

def dval (c : Char) : Nat := c.toNat - 48

/-- Case-insensitive match of one abbreviation (given lowercase). -/
def matchAbbr : List Char → List Char → Option (List Char)
  | [], l => some l
  | _ :: _, [] => none
  | a :: as, c :: cs => if c.toLower == a then matchAbbr as cs else none

/-- Try each abbreviation in order, returning its index. -/
def matchAbbrList (abbrs : List (List Char)) (l : List Char) (i : Nat) :
    Option (Nat × List Char) :=
  match abbrs with
  | [] => none
  | a :: rest =>
    match matchAbbr a l with
    | some r => some (i, r)
    | none => matchAbbrList rest l (i + 1)

def weekAbbrs : List (List Char) :=
  [['m','o','n'], ['t','u','e'], ['w','e','d'], ['t','h','u'],
   ['f','r','i'], ['s','a','t'], ['s','u','n']]

def monthAbbrs : List (List Char) :=
  [['j','a','n'], ['f','e','b'], ['m','a','r'], ['a','p','r'],
   ['m','a','y'], ['j','u','n'], ['j','u','l'], ['a','u','g'],
   ['s','e','p'], ['o','c','t'], ['n','o','v'], ['d','e','c']]

/-- Format whitespace compiles to `\s+`: at least one whitespace
character, then as many as present (greedy; the following tokens never
match whitespace, so maximal munch is exact). -/
def parseWS : List Char → Option (List Char)
  | c :: rest => if pyIsSpace c then some (rest.dropWhile pyIsSpace) else none
  | [] => none

/-- A literal (escaped) character of the format string. -/
def parseLit (lit : Char) : List Char → Option (List Char)
  | c :: rest => if c == lit then some rest else none
  | [] => none

/-- A numeric directive whose regex alternation offers a two-digit form
(accepted when `ok2` holds of its value) and a one-digit form (accepted
when `ok1` holds).  The two-digit branch is tried first, as in the
regex; falling back to one digit leaves a digit in the input where the
format next requires a separator, so no backtracking is lost. -/
def parseNum2or1 (ok2 ok1 : Nat → Bool) : List Char → Option (Nat × List Char)
  | c1 :: c2 :: rest =>
    if isDigit c1 && isDigit c2 && ok2 (10 * dval c1 + dval c2) then
      some (10 * dval c1 + dval c2, rest)
    else if isDigit c1 && ok1 (dval c1) then
      some (dval c1, c2 :: rest)
    else none
  | [c1] =>
    if isDigit c1 && ok1 (dval c1) then some (dval c1, []) else none
  | [] => none

/-- `%Y` compiles to exactly four digits. -/
def parseYear4 : List Char → Option (Nat × List Char)
  | c1 :: c2 :: c3 :: c4 :: rest =>
    if isDigit c1 && isDigit c2 && isDigit c3 && isDigit c4 then
      some (1000 * dval c1 + 100 * dval c2 + 10 * dval c3 + dval c4, rest)
    else none
  | _ => none

/-- Optional `:` (`:?` in the `%z` regex); a following digit is
required either way, so consuming a present colon is exact. -/
def skipColon : List Char → List Char
  | ':' :: rest => rest
  | l => l

/-- Fractional part `(\.\d{1,6})?` of `%z`: up to six digits, scaled
to microseconds. -/
def parseFraction : List Char → Option (Nat × List Char)
  | '.' :: rest =>
    let digits := (rest.takeWhile isDigit).take 6
    if digits.isEmpty then none
    else some (digits.foldl (fun acc c => 10 * acc + dval c) 0 *
               10 ^ (6 - digits.length),
               rest.drop digits.length)
  | _ => none

/-- Optional seconds group `(:?[0-5]\d(\.\d{1,6})?)?` of `%z`, in
microseconds. -/
def parseZSeconds (l : List Char) : Option (Nat × List Char) :=
  match skipColon l with
  | c1 :: c2 :: rest =>
    if ('0' ≤ c1 && c1 ≤ '5') && isDigit c2 then
      let secs := 10 * dval c1 + dval c2
      match parseFraction rest with
      | some (micro, r) => some (secs * 1000000 + micro, r)
      | none => some (secs * 1000000, rest)
    else none
  | _ => none

/-- `%z`: `[+-]\d\d:?[0-5]\d(:?[0-5]\d(\.\d{1,6})?)?|Z` (the `Z`
branch is case-sensitive).  Returns the offset magnitude in
microseconds — the sign never reaches the output, only the `timezone`
range check. -/
def parseZ : List Char → Option (Nat × List Char)
  | 'Z' :: rest => some (0, rest)
  | s :: rest =>
    if s == '+' || s == '-' then
      match rest with
      | d1 :: d2 :: r2 =>
        if isDigit d1 && isDigit d2 then
          let hh := 10 * dval d1 + dval d2
          match skipColon r2 with
          | d3 :: d4 :: r4 =>
            if ('0' ≤ d3 && d3 ≤ '5') && isDigit d4 then
              let mm := 10 * dval d3 + dval d4
              let base := (hh * 3600 + mm * 60) * 1000000
              match parseZSeconds r4 with
              | some (micro, r) => some (base + micro, r)
              | none => some (base, r4)
            else none
          | _ => none
        else none
      | _ => none
    else none
  | [] => none

/-- Days per month, with the Gregorian leap rule, as validated by the
`datetime` constructor. -/
def daysInMonth (year month : Nat) : Nat :=
  if month == 2 then
    if year % 4 == 0 && (year % 100 != 0 || year % 400 == 0) then 29 else 28
  else if month == 4 || month == 6 || month == 9 || month == 11 then 30
  else 31

/-- The `%H:%M:%S %z` tail of the format, then the end-of-input and
constructor validation applied to the already-parsed date fields. -/
def strptimeTimePart (year month day : Nat) (l : List Char) : Option PyDateTime :=
  (parseNum2or1 (fun v => v ≤ 23) (fun _ => true) l).bind fun hr =>
  (parseLit ':' hr.2).bind fun r11 =>
  (parseNum2or1 (fun v => v ≤ 59) (fun _ => true) r11).bind fun mi =>
  (parseLit ':' mi.2).bind fun r13 =>
  (parseNum2or1 (fun v => v ≤ 61) (fun _ => true) r13).bind fun se =>
  (parseWS se.2).bind fun r15 =>
  (parseZ r15).bind fun off =>
  if off.2.isEmpty && 1 ≤ year && day ≤ daysInMonth year month &&
     se.1 ≤ 59 && off.1 < 24 * 3600 * 1000000 then
    some ⟨year, month, day, hr.1, mi.1, se.1⟩
  else none

/-- `datetime.strptime(s, "%a, %d %b %Y %H:%M:%S %z")` (src line 87):
`none` exactly where CPython raises `ValueError` — regex mismatch,
unconverted trailing data, out-of-range date, second 60/61, year 0, or
a UTC offset of 24 hours or more. -/
def strptime_rfc822 (s : String) : Option PyDateTime :=
  (matchAbbrList weekAbbrs s.data 0).bind fun wd =>
  (parseLit ',' wd.2).bind fun r2 =>
  (parseWS r2).bind fun r3 =>
  (parseNum2or1 (fun v => 1 ≤ v && v ≤ 31) (fun v => 1 ≤ v) r3).bind fun dy =>
  (parseWS dy.2).bind fun r5 =>
  (matchAbbrList monthAbbrs r5 0).bind fun mo =>
  (parseWS mo.2).bind fun r7 =>
  (parseYear4 r7).bind fun yr =>
  (parseWS yr.2).bind fun r9 =>
  strptimeTimePart yr.1 (mo.1 + 1) dy.1 r9

def pad2 (n : Nat) : String :=
  if n < 10 then "0" ++ toString n else toString n

def pad4 (n : Nat) : String :=
  if n < 10 then "000" ++ toString n
  else if n < 100 then "00" ++ toString n
  else if n < 1000 then "0" ++ toString n
  else toString n

/-- `.strftime("%Y-%m-%d %H:%M:%S")`: the datetime's own wall-clock
components, zero-padded; the stored offset is not consulted. -/
def strftime_canonical (dt : PyDateTime) : String :=
  pad4 dt.year ++ "-" ++ pad2 dt.month ++ "-" ++ pad2 dt.day ++ " " ++
  pad2 dt.hour ++ ":" ++ pad2 dt.minute ++ ":" ++ pad2 dt.second

/-- The date-normalization expression of src lines 85-89: the sentinel
short-circuit, the strptime/strftime pipeline, and the
`except (ValueError, TypeError)` fallback. -/
def normalize_pub_date (raw : String) : String :=
  if raw = "Unknown" then "Unknown"
  else
    match strptime_rfc822 raw with
    | some dt => strftime_canonical dt
    | none => "Unknown"

/-! ## Feed parsing (`parse_rss_feed`, src lines 73-108) -/

/-- One element of `RSS_FEEDS` (src lines 30-56). -/
structure FeedInfo where
  country : String
  source : String
  url : String

/-- One feed entry as `feedparser` hands it over: each field the code
reads via `entry.get(...)` may be absent. -/
structure FeedEntry where
  title : Option String
  summary : Option String
  description : Option String
  published : Option String
  updated : Option String
  link : Option String

/-- The document object `feedparser.parse` returns: the bozo flag with
its reason, and the entry list. -/
structure FeedDoc where
  bozo : Bool
  bozo_exception : String
  entries : List FeedEntry

/-- What fetching one URL does in the surrounding world: a parsed
document (possibly flagged bozo), a raised `URLError`, or any other
raised exception. -/
inductive FetchOutcome where
  | parsed (doc : FeedDoc)
  | urlError (msg : String)
  | unexpectedError (msg : String)

/-- The record dict assembled at src lines 93-101. -/
structure NewsRecord where
  country : String
  source : String
  title : String
  pub_date : String
  description : String
  url : String
  language : String
deriving DecidableEq

inductive LogLevel where
  | info
  | error
deriving DecidableEq

/-- One line of the diagnostic log. -/
structure LogEntry where
  level : LogLevel
  msg : String

/-- The loop body of src lines 82-101 for one entry. -/
def entryToRecord (rng : Nat) (fi : FeedInfo) (entry : FeedEntry) : NewsRecord :=
  let title := clean_text (entry.title.getD "No Title")
  let description := clean_text (entry.summary.getD (entry.description.getD "No Description"))
  let pub_date := normalize_pub_date (entry.published.getD (entry.updated.getD "Unknown"))
  let link := entry.link.getD "No URL"
  let language := detect_language rng (title ++ " " ++ description)
  ⟨fi.country, fi.source, title, pub_date, description, link, language⟩

/-- `parse_rss_feed` (src lines 73-108), returning the record list and
the log lines it emits.  `fetch` is the ambient network/parser
behavior, `rng` the ambient process randomness. -/
def parse_rss_feed (fetch : String → FetchOutcome) (rng : Nat) (fi : FeedInfo) :
    List NewsRecord × List LogEntry :=
  match fetch fi.url with
  | .parsed doc =>
    if doc.bozo then
      ([], [⟨.error, "Error parsing feed " ++ fi.source ++ " (" ++ fi.country ++ "): "
                     ++ doc.bozo_exception⟩])
    else
      let items := doc.entries.map (entryToRecord rng fi)
      (items, [⟨.info, "Successfully parsed " ++ toString items.length ++ " items from "
                       ++ fi.source ++ " (" ++ fi.country ++ ")"⟩])
  | .urlError e =>
    ([], [⟨.error, "Network error for " ++ fi.source ++ " (" ++ fi.country ++ "): " ++ e⟩])
  | .unexpectedError e =>
    ([], [⟨.error, "Unexpected error for " ++ fi.source ++ " (" ++ fi.country ++ "): " ++ e⟩])

/-- The outcomes on which `parse_rss_feed` takes a failure path. -/
def fetchFails : FetchOutcome → Bool
  | .parsed doc => doc.bozo
  | .urlError _ => true
  | .unexpectedError _ => true

/-! ## Deduplicating writers (src lines 110-127)

Both writers build `pd.DataFrame(data)` and call
`drop_duplicates(subset=["title", "url"], keep="first")`.  A frame
built from a list of dicts has the dicts' keys as columns — no columns
at all when the list is empty — and `drop_duplicates` raises
`KeyError` when a subset label is not among the columns. -/

/-- The columns of `pd.DataFrame(data)` for a list of news-record
dicts. -/
def frameColumns (data : List NewsRecord) : List String :=
  if data.isEmpty then []
  else ["country", "source", "title", "pub_date", "description", "url", "language"]

/-- The dedup key `(title, url)`. -/
def dedupKey (r : NewsRecord) : String × String := (r.title, r.url)

/-- `drop_duplicates(..., keep="first")` generically: keep each element
whose key was not seen before it. -/
def dedupFirst {α κ : Type} [DecidableEq κ] (key : α → κ) :
    List α → List κ → List α
  | [], _ => []
  | x :: rest, seen =>
    if key x ∈ seen then dedupFirst key rest seen
    else x :: dedupFirst key rest (key x :: seen)

/-- `df.drop_duplicates(subset=["title", "url"], keep="first")`
(src lines 113 and 122). -/
def drop_duplicates (data : List NewsRecord) : List NewsRecord :=
  dedupFirst dedupKey data []

/-- `save_to_csv` (src lines 110-116): `KeyError` on a column-less
frame; otherwise the file is fully overwritten with the deduplicated
batch (its previous content is irrelevant) and the post-dedup row
count is returned. -/
def save_to_csv (data : List NewsRecord) (_file : List NewsRecord) :
    Except String (List NewsRecord × Nat) :=
  if ["title", "url"].all (frameColumns data).contains then
    .ok (drop_duplicates data, (drop_duplicates data).length)
  else
    .error "KeyError: title, url not in columns"

/-- `save_to_sqlite` (src lines 118-127): `KeyError` on a column-less
frame; otherwise `to_sql(..., if_exists="append")` appends the
deduplicated batch to whatever rows the `news` table already holds. -/
def save_to_sqlite (data : List NewsRecord) (table : List NewsRecord) :
    Except String (List NewsRecord × Nat) :=
  if ["title", "url"].all (frameColumns data).contains then
    .ok (table ++ drop_duplicates data, (drop_duplicates data).length)
  else
    .error "KeyError: title, url not in columns"

/-! ## Summary reporter (`generate_summary`, src lines 129-134)

`df.groupby(["country", "source"]).size()` groups the full record
list, one row per distinct key, sorted (pandas `groupby` default
`sort=True`) lexicographically by the `(country, source)` tuple. -/

structure SummaryRecord where
  country : String
  source : String
  total_articles : Nat
  historical_data : String
deriving DecidableEq

/-- The constant annotation of src line 133. -/
def historicalNote : String := "Varies by feed (up to 1 year where available)"

/-- Group key of one record. -/
def groupKey (r : NewsRecord) : String × String := (r.country, r.source)

/-- Python tuple-of-strings comparison: lexicographic on the pair with
code-point string order. -/
def keyLe (a b : String × String) : Prop :=
  a.1 < b.1 ∨ (a.1 = b.1 ∧ a.2 ≤ b.2)

/-- Strict version of `keyLe`. -/
def keyLt (a b : String × String) : Prop :=
  a.1 < b.1 ∨ (a.1 = b.1 ∧ a.2 < b.2)

instance : DecidableRel keyLe := fun a b => by
  unfold keyLe; infer_instance

instance : DecidableRel keyLt := fun a b => by
  unfold keyLt; infer_instance

instance : IsTotal (String × String) keyLe where
  total a b := by
    rcases lt_trichotomy a.1 b.1 with h | h | h
    · exact Or.inl (Or.inl h)
    · rcases le_total a.2 b.2 with h2 | h2
      · exact Or.inl (Or.inr ⟨h, h2⟩)
      · exact Or.inr (Or.inr ⟨h.symm, h2⟩)
    · exact Or.inr (Or.inl h)

instance : IsTrans (String × String) keyLe where
  trans a b c hab hbc := by
    rcases hab with h1 | ⟨e1, l1⟩
    · rcases hbc with h2 | ⟨e2, _⟩
      · exact Or.inl (h1.trans h2)
      · exact Or.inl (e2 ▸ h1)
    · rcases hbc with h2 | ⟨e2, l2⟩
      · exact Or.inl (e1 ▸ h2)
      · exact Or.inr ⟨e1.trans e2, l1.trans l2⟩

/-- The distinct group keys in first-appearance order (the grouping
index before sorting). -/
def groupKeys (data : List NewsRecord) : List (String × String) :=
  dedupFirst id (data.map groupKey) []

/-- `generate_summary` (src lines 129-134): `KeyError` on a column-less
frame; otherwise one row per distinct `(country, source)` key in
sorted key order, counting all records of the full list, with the
constant annotation attached. -/
def generate_summary (data : List NewsRecord) :
    Except String (List SummaryRecord) :=
  if ["country", "source"].all (frameColumns data).contains then
    .ok ((List.insertionSort keyLe (groupKeys data)).map fun k =>
      ⟨k.1, k.2, (data.filter fun r => groupKey r = k).length, historicalNote⟩)
  else
    .error "KeyError: country"

/-! ## Lemmas about run substitution and stripping -/

theorem subRuns_nil (p : Char → Bool) (b : Bool) : subRuns p b [] = [] := rfl

theorem subRuns_cons_pos {p : Char → Bool} {c : Char} (h : p c = true)
    (b : Bool) (rest : List Char) :
    subRuns p b (c :: rest) = (if b then [] else [' ']) ++ subRuns p true rest := by
  simp only [subRuns, h, if_pos]

theorem subRuns_cons_neg {p : Char → Bool} {c : Char} (h : p c = false)
    (b : Bool) (rest : List Char) :
    subRuns p b (c :: rest) = c :: subRuns p false rest := by
  simp only [subRuns, h, Bool.false_eq_true, if_neg, not_false_iff]

theorem mem_subRuns {p : Char → Bool} :
    ∀ {b : Bool} {l : List Char} {c : Char}, c ∈ subRuns p b l →
      c = ' ' ∨ (c ∈ l ∧ p c = false) := by
  intro b l
  induction l generalizing b with
  | nil => intro c h; simp [subRuns] at h
  | cons x rest ih =>
    intro c h
    simp only [subRuns] at h
    by_cases hx : p x
    · simp only [hx, if_pos] at h
      rcases List.mem_append.mp h with h1 | h2
      · cases b with
        | true => simp at h1
        | false =>
          left
          simpa using h1
      · rcases ih h2 with h3 | ⟨h4, h5⟩
        · exact Or.inl h3
        · exact Or.inr ⟨List.mem_cons_of_mem _ h4, h5⟩
    · simp only [hx, if_neg, Bool.false_eq_true, not_false_iff] at h
      rcases List.mem_cons.mp h with h1 | h2
      · subst h1
        exact Or.inr ⟨List.mem_cons_self _ _, by simpa using hx⟩
      · rcases ih h2 with h3 | ⟨h4, h5⟩
        · exact Or.inl h3
        · exact Or.inr ⟨List.mem_cons_of_mem _ h4, h5⟩

theorem subRuns_eq_self {p : Char → Bool} :
    ∀ {b : Bool} {l : List Char}, (∀ c ∈ l, p c = false) → subRuns p b l = l := by
  intro b l
  induction l generalizing b with
  | nil => intro _; rfl
  | cons x rest ih =>
    intro h
    have hx : p x = false := h x (List.mem_cons_self _ _)
    simp only [subRuns, hx, Bool.false_eq_true, if_neg, not_false_iff]
    exact congrArg (x :: ·) (ih fun c hc => h c (List.mem_cons_of_mem _ hc))

theorem mem_subRuns_of_not_p {p : Char → Bool} :
    ∀ {b : Bool} {l : List Char} {c : Char}, c ∈ l → p c = false →
      c ∈ subRuns p b l := by
  intro b l
  induction l generalizing b with
  | nil => intro c h; simp at h
  | cons x rest ih =>
    intro c hc hpc
    simp only [subRuns]
    by_cases hx : p x
    · rcases List.mem_cons.mp hc with h1 | h2
      · subst h1; simp [hx] at hpc
      · simp only [hx, if_pos]
        exact List.mem_append_right _ (ih h2 hpc)
    · rcases List.mem_cons.mp hc with h1 | h2
      · subst h1
        simp [hx]
      · simp only [hx, Bool.false_eq_true, if_neg, not_false_iff]
        exact List.mem_cons_of_mem _ (ih h2 hpc)

theorem subRuns_subRuns {p : Char → Bool} (hsp : p ' ' = true) :
    ∀ (l : List Char) (b : Bool), subRuns p b (subRuns p b l) = subRuns p b l := by
  intro l
  induction l with
  | nil => intro b; rfl
  | cons x rest ih =>
    intro b
    by_cases hx : p x
    · cases b with
      | true =>
        simp only [subRuns, hx, if_pos, List.nil_append]
        exact ih true
      | false =>
        simp only [subRuns, hx, if_pos, List.singleton_append, hsp]
        exact congrArg (' ' :: ·) (ih true)
    · simp only [subRuns, hx, Bool.false_eq_true, if_neg, not_false_iff]
      exact congrArg (x :: ·) (ih false)

theorem getLast?_cons_of_ne_nil {α : Type} {a : α} {l : List α} (h : l ≠ []) :
    (a :: l).getLast? = l.getLast? := by
  cases l with
  | nil => exact absurd rfl h
  | cons b t => exact List.getLast?_cons_cons

theorem subRuns_ne_nil_of_mem {p : Char → Bool} {b : Bool} {l : List Char}
    {d : Char} (hd : d ∈ l) (hpd : p d = false) : subRuns p b l ≠ [] :=
  List.ne_nil_of_mem (mem_subRuns_of_not_p hd hpd)

theorem subRuns_getLast? {p : Char → Bool} :
    ∀ (l : List Char) (b : Bool),
      (∀ c, l.getLast? = some c → p c = false) →
      ∀ c, (subRuns p b l).getLast? = some c → p c = false := by
  intro l
  induction l with
  | nil => intro b _ c h; simp [subRuns] at h
  | cons x rest ih =>
    intro b hl c hc
    cases rest with
    | nil =>
      have hx : p x = false := hl x rfl
      rw [subRuns_cons_neg hx, subRuns_nil, List.getLast?_singleton,
        Option.some_inj] at hc
      exact hc ▸ hx
    | cons y t =>
      have htail : ∀ c, (y :: t).getLast? = some c → p c = false := by
        intro c h
        exact hl c (List.getLast?_cons_cons.trans h)
      obtain ⟨d, hd⟩ := Option.isSome_iff_exists.mp
        (List.getLast?_isSome.mpr (List.cons_ne_nil y t))
      have hpd : p d = false := htail d hd
      have hdmem : d ∈ y :: t := List.mem_of_mem_getLast? hd
      by_cases hx : p x
      · rw [subRuns_cons_pos hx] at hc
        cases b with
        | true =>
          rw [if_pos rfl, List.nil_append] at hc
          exact ih true htail c hc
        | false =>
          rw [if_neg (by simp), List.singleton_append,
            getLast?_cons_of_ne_nil (subRuns_ne_nil_of_mem hdmem hpd)] at hc
          exact ih true htail c hc
      · rw [subRuns_cons_neg (by simpa using hx),
          getLast?_cons_of_ne_nil (subRuns_ne_nil_of_mem hdmem hpd)] at hc
        exact ih false htail c hc

theorem dropWhile_head_not {α : Type} {p : α → Bool} :
    ∀ {l : List α} {c : α} {t : List α}, l.dropWhile p = c :: t → p c = false := by
  intro l
  induction l with
  | nil => intro c t h; simp at h
  | cons x rest ih =>
    intro c t h
    rw [List.dropWhile_cons] at h
    by_cases hx : p x
    · rw [if_pos hx] at h
      exact ih h
    · rw [if_neg hx] at h
      injection h with h1 _
      subst h1
      simpa using hx

theorem head?_dropWhile_not {α : Type} {p : α → Bool} {l : List α} {c : α}
    (h : (l.dropWhile p).head? = some c) : p c = false := by
  cases hd : l.dropWhile p with
  | nil => rw [hd] at h; simp at h
  | cons a t =>
    rw [hd] at h
    simp only [List.head?_cons, Option.some_inj] at h
    exact h ▸ dropWhile_head_not hd

theorem mem_pyStrip {l : List Char} {c : Char} (h : c ∈ pyStrip l) : c ∈ l := by
  unfold pyStrip at h
  rw [List.mem_reverse] at h
  have h2 := (List.dropWhile_suffix pyIsSpace).subset h
  rw [List.mem_reverse] at h2
  exact (List.dropWhile_suffix pyIsSpace).subset h2

theorem pyStrip_head {l : List Char} {c : Char} {t : List Char}
    (h : pyStrip l = c :: t) : pyIsSpace c = false := by
  have hhead : (pyStrip l).head? = some c := by rw [h]; rfl
  unfold pyStrip at hhead
  rw [List.head?_reverse] at hhead
  obtain ⟨pre, hpre⟩ :=
    List.dropWhile_suffix (l := (l.dropWhile pyIsSpace).reverse) pyIsSpace
  have hgl : (l.dropWhile pyIsSpace).reverse.getLast? = some c := by
    rw [← hpre, List.getLast?_append, hhead]
    rfl
  rw [List.getLast?_reverse] at hgl
  exact head?_dropWhile_not hgl

theorem pyStrip_getLast? {l : List Char} {c : Char}
    (h : (pyStrip l).getLast? = some c) : pyIsSpace c = false := by
  unfold pyStrip at h
  rw [List.getLast?_reverse] at h
  exact head?_dropWhile_not h

/-! ## Structure of `clean_text` -/

theorem clean_text_eq {s : String} (h : ¬ s = "") :
    clean_text s =
      ⟨subRuns nonAscii false (subRuns pyIsSpace false (pyStrip s.data))⟩ := by
  unfold clean_text
  rw [if_neg h]

theorem collapsed_ascii {s : String} (hs : ∀ c ∈ s.data, c.toNat ≤ 127) :
    ∀ c ∈ subRuns pyIsSpace false (pyStrip s.data), nonAscii c = false := by
  intro c hc
  rcases mem_subRuns hc with h1 | ⟨h2, _⟩
  · subst h1; decide
  · have := hs c (mem_pyStrip h2)
    simp only [nonAscii, decide_eq_false_iff_not, not_lt]
    exact this

/-! ## Claim C2 -/

/-- C2, counterexample.  The claim says `clean_text` output has no
multi-space runs and only 7-bit *printable* characters.  On
`"a\x01 é b"` the code keeps the control character `U+0001` (the
second substitution only removes code points above `0x7F`, and `\s`
does not match `\x01`) and turns the single non-ASCII character into a
space between two existing spaces, producing a three-space run. -/
theorem c2_counterexample :
    clean_text "a\x01 é b" = "a\x01   b" ∧
    ¬ (∀ c ∈ (clean_text "a\x01 é b").data, 32 ≤ c.toNat ∧ c.toNat ≤ 126) ∧
    ∃ a b : String, clean_text "a\x01 é b" = a ++ "  " ++ b := by
  refine ⟨by decide, by decide, "a\x01", " b", by decide⟩

/-- C2 (amended): for every input string, every character of the
`clean_text` output is in the 7-bit range (code point at most `0x7F` —
ASCII control characters are kept, not only printables), and every
whitespace character of the output is a plain space (so no tabs,
newlines or other whitespace runs survive); each contiguous run of
removed non-ASCII characters is replaced by a single space, which can
sit next to spaces that were already there. -/
theorem c2_clean_text_seven_bit (s : String) (c : Char)
    (hc : c ∈ (clean_text s).data) :
    c.toNat ≤ 127 ∧ (pyIsSpace c = true → c = ' ') := by
  by_cases hs : s = ""
  · subst hs
    simp [clean_text] at hc
  · rw [clean_text_eq hs] at hc
    rcases mem_subRuns hc with h1 | ⟨h2, hna⟩
    · subst h1
      exact ⟨by decide, fun _ => rfl⟩
    · refine ⟨by simpa [nonAscii, not_lt] using hna, ?_⟩
      intro hsp
      rcases mem_subRuns h2 with h3 | ⟨_, h4⟩
      · exact h3
      · rw [h4] at hsp
        cases hsp

/-- C2, witness: the amended theorem evaluated on a concrete string
and character. -/
theorem c2_witness : 'h'.toNat ≤ 127 ∧ (pyIsSpace 'h' = true → 'h' = ' ') :=
  c2_clean_text_seven_bit "hi there" 'h' (by decide)

/-! ## Claim C7 -/

/-- C7, counterexample.  `clean_text` is not idempotent: on `"a é b"`
the first pass yields `"a   b"` (the non-ASCII run between two spaces
becomes a third space), and a second pass collapses that run to
`"a b"`. -/
theorem c7_counterexample :
    clean_text (clean_text "a é b") ≠ clean_text "a é b" := by
  decide

/-- C7 (amended): `clean_text` is idempotent on every input whose
characters all lie in the 7-bit range (code point at most `0x7F`);
only inputs containing non-ASCII characters can break idempotence. -/
theorem c7_clean_text_idem_ascii (s : String)
    (hs : ∀ c ∈ s.data, c.toNat ≤ 127) :
    clean_text (clean_text s) = clean_text s := by
  by_cases hs0 : s = ""
  · subst hs0
    rfl
  · have h1 : clean_text s = ⟨subRuns pyIsSpace false (pyStrip s.data)⟩ := by
      rw [clean_text_eq hs0, subRuns_eq_self (collapsed_ascii hs)]
    rw [h1]
    cases hy : subRuns pyIsSpace false (pyStrip s.data) with
    | nil =>
      rfl
    | cons c0 y0 =>
      have hyne : (⟨c0 :: y0⟩ : String) ≠ "" := by
        intro he
        have := congrArg String.data he
        simp at this
      rw [clean_text_eq hyne]
      -- the collapsed, stripped list is already stripped:
      have hz : pyStrip s.data ≠ [] := by
        intro he
        rw [he] at hy
        exact (List.cons_ne_nil c0 y0) hy.symm
      have hhead : pyIsSpace c0 = false := by
        cases hz' : pyStrip s.data with
        | nil => exact absurd hz' hz
        | cons a t =>
          have ha : pyIsSpace a = false := pyStrip_head hz'
          rw [hz', subRuns_cons_neg ha] at hy
          injection hy with h1 _
          exact h1 ▸ ha
      have hlast : ∀ c, ((c0 :: y0) : List Char).getLast? = some c →
          pyIsSpace c = false := by
        intro c hcl
        rw [← hy] at hcl
        exact subRuns_getLast? (pyStrip s.data) false
          (fun d hd => pyStrip_getLast? hd) c hcl
      have hstrip : pyStrip (c0 :: y0) = c0 :: y0 := by
        unfold pyStrip
        rw [List.dropWhile_cons, if_neg (by simp [hhead])]
        cases hr : (c0 :: y0).reverse with
        | nil => simp at hr
        | cons g t' =>
          have hg : pyIsSpace g = false := by
            have : ((c0 :: y0) : List Char).getLast? = some g := by
              rw [← List.head?_reverse, hr]
              rfl
            exact hlast g this
          rw [List.dropWhile_cons, if_neg (by simp [hg]), ← hr,
            List.reverse_reverse]
      have hcollapse : subRuns pyIsSpace false (c0 :: y0) = c0 :: y0 := by
        rw [← hy]
        exact subRuns_subRuns (by decide) (pyStrip s.data) false
      have hascii : ∀ c ∈ (c0 :: y0 : List Char), nonAscii c = false := by
        intro c hcm
        rw [← hy] at hcm
        exact collapsed_ascii hs c hcm
      show (⟨subRuns nonAscii false
        (subRuns pyIsSpace false (pyStrip (⟨c0 :: y0⟩ : String).data))⟩ : String) =
        ⟨c0 :: y0⟩
      have hdata : (⟨c0 :: y0⟩ : String).data = c0 :: y0 := rfl
      rw [hdata, hstrip, hcollapse, subRuns_eq_self hascii]

/-- C7, witness: the amended theorem evaluated on a concrete
all-ASCII string. -/
theorem c7_witness : clean_text (clean_text "ab  cd") = clean_text "ab  cd" :=
  c7_clean_text_idem_ascii "ab  cd" (by decide)

/-! ## Bounds of the date parser -/

theorem dval_le_nine {c : Char} (h : isDigit c = true) : dval c ≤ 9 := by
  unfold isDigit at h
  rw [Bool.and_eq_true, decide_eq_true_eq, decide_eq_true_eq] at h
  unfold dval
  omega

theorem parseNum2or1_bound {ok2 ok1 : Nat → Bool} :
    ∀ {l : List Char} {v : Nat} {r : List Char},
      parseNum2or1 ok2 ok1 l = some (v, r) →
      ok2 v = true ∨ (ok1 v = true ∧ v ≤ 9) := by
  intro l v r h
  match l with
  | [] => exact absurd h (by simp [parseNum2or1])
  | [c1] =>
    rw [parseNum2or1] at h
    split at h
    · rename_i hcond
      rw [Bool.and_eq_true] at hcond
      injection h with h'
      injection h' with h1 _
      subst h1
      exact Or.inr ⟨hcond.2, dval_le_nine hcond.1⟩
    · exact absurd h (by simp)
  | c1 :: c2 :: rest =>
    rw [parseNum2or1] at h
    split at h
    · rename_i hcond
      rw [Bool.and_eq_true, Bool.and_eq_true] at hcond
      injection h with h'
      injection h' with h1 _
      subst h1
      exact Or.inl hcond.2
    · split at h
      · rename_i hcond
        rw [Bool.and_eq_true] at hcond
        injection h with h'
        injection h' with h1 _
        subst h1
        exact Or.inr ⟨hcond.2, dval_le_nine hcond.1⟩
      · exact absurd h (by simp)

theorem parseYear4_bound :
    ∀ {l : List Char} {v : Nat} {r : List Char},
      parseYear4 l = some (v, r) → v ≤ 9999 := by
  intro l v r h
  match l with
  | [] => exact absurd h (by simp [parseYear4])
  | [_] => exact absurd h (by simp [parseYear4])
  | [_, _] => exact absurd h (by simp [parseYear4])
  | [_, _, _] => exact absurd h (by simp [parseYear4])
  | c1 :: c2 :: c3 :: c4 :: rest =>
    rw [parseYear4] at h
    split at h
    · rename_i hcond
      rw [Bool.and_eq_true, Bool.and_eq_true, Bool.and_eq_true] at hcond
      injection h with h'
      injection h' with h1 _
      subst h1
      have b1 := dval_le_nine hcond.1.1.1
      have b2 := dval_le_nine hcond.1.1.2
      have b3 := dval_le_nine hcond.1.2
      have b4 := dval_le_nine hcond.2
      omega
    · exact absurd h (by simp)

theorem matchAbbrList_lt :
    ∀ (abbrs : List (List Char)) (l : List Char) (i : Nat) {j : Nat}
      {r : List Char}, matchAbbrList abbrs l i = some (j, r) →
      j < i + abbrs.length := by
  intro abbrs
  induction abbrs with
  | nil => intro l i j r h; simp [matchAbbrList] at h
  | cons a rest ih =>
    intro l i j r h
    rw [matchAbbrList] at h
    cases hm : matchAbbr a l with
    | some r' =>
      rw [hm] at h
      injection h with h'
      injection h' with h1 _
      subst h1
      simp
    | none =>
      rw [hm] at h
      have := ih l (i + 1) h
      simp only [List.length_cons]
      omega

theorem daysInMonth_le (year month : Nat) : daysInMonth year month ≤ 31 := by
  unfold daysInMonth
  repeat' split
  all_goals omega

theorem strptimeTimePart_some {year month day : Nat} {l : List Char}
    {dt : PyDateTime} (h : strptimeTimePart year month day l = some dt) :
    dt.year = year ∧ dt.month = month ∧ dt.day = day ∧
    1 ≤ year ∧ day ≤ daysInMonth year month ∧
    dt.hour ≤ 23 ∧ dt.minute ≤ 59 ∧ dt.second ≤ 59 := by
  unfold strptimeTimePart at h
  cases h1 : parseNum2or1 (fun v => decide (v ≤ 23)) (fun _ => true) l with
  | none => rw [h1] at h; exact absurd h (by simp)
  | some hr =>
  rw [h1, Option.some_bind] at h
  cases h2 : parseLit ':' hr.2 with
  | none => rw [h2] at h; exact absurd h (by simp)
  | some r11 =>
  rw [h2, Option.some_bind] at h
  cases h3 : parseNum2or1 (fun v => decide (v ≤ 59)) (fun _ => true) r11 with
  | none => rw [h3] at h; exact absurd h (by simp)
  | some mi =>
  rw [h3, Option.some_bind] at h
  cases h4 : parseLit ':' mi.2 with
  | none => rw [h4] at h; exact absurd h (by simp)
  | some r13 =>
  rw [h4, Option.some_bind] at h
  cases h5 : parseNum2or1 (fun v => decide (v ≤ 61)) (fun _ => true) r13 with
  | none => rw [h5] at h; exact absurd h (by simp)
  | some se =>
  rw [h5, Option.some_bind] at h
  cases h6 : parseWS se.2 with
  | none => rw [h6] at h; exact absurd h (by simp)
  | some r15 =>
  rw [h6, Option.some_bind] at h
  cases h7 : parseZ r15 with
  | none => rw [h7] at h; exact absurd h (by simp)
  | some off =>
  rw [h7, Option.some_bind] at h
  split at h
  · rename_i hcond
    rw [Bool.and_eq_true, Bool.and_eq_true, Bool.and_eq_true,
      Bool.and_eq_true] at hcond
    injection h with h'
    subst h'
    refine ⟨rfl, rfl, rfl, ?_, ?_, ?_, ?_, ?_⟩
    · exact of_decide_eq_true hcond.1.1.1.2
    · exact of_decide_eq_true hcond.1.1.2
    · have hhr : hr.1 ≤ 23 := by
        rcases parseNum2or1_bound h1 with hb | ⟨_, hb⟩
        · exact of_decide_eq_true hb
        · omega
      exact hhr
    · have hmi : mi.1 ≤ 59 := by
        rcases parseNum2or1_bound h3 with hb | ⟨_, hb⟩
        · exact of_decide_eq_true hb
        · omega
      exact hmi
    · exact of_decide_eq_true hcond.1.2
  · exact absurd h (by simp)

theorem strptime_rfc822_bounds {s : String} {dt : PyDateTime}
    (h : strptime_rfc822 s = some dt) :
    1 ≤ dt.year ∧ dt.year ≤ 9999 ∧ 1 ≤ dt.month ∧ dt.month ≤ 12 ∧
    1 ≤ dt.day ∧ dt.day ≤ 31 ∧ dt.hour ≤ 23 ∧ dt.minute ≤ 59 ∧
    dt.second ≤ 59 := by
  unfold strptime_rfc822 at h
  cases h1 : matchAbbrList weekAbbrs s.data 0 with
  | none => rw [h1] at h; exact absurd h (by simp)
  | some wd =>
  rw [h1, Option.some_bind] at h
  cases h2 : parseLit ',' wd.2 with
  | none => rw [h2] at h; exact absurd h (by simp)
  | some r2 =>
  rw [h2, Option.some_bind] at h
  cases h3 : parseWS r2 with
  | none => rw [h3] at h; exact absurd h (by simp)
  | some r3 =>
  rw [h3, Option.some_bind] at h
  cases h4 : parseNum2or1 (fun v => decide (1 ≤ v) && decide (v ≤ 31))
      (fun v => decide (1 ≤ v)) r3 with
  | none => rw [h4] at h; exact absurd h (by simp)
  | some dy =>
  rw [h4, Option.some_bind] at h
  cases h5 : parseWS dy.2 with
  | none => rw [h5] at h; exact absurd h (by simp)
  | some r5 =>
  rw [h5, Option.some_bind] at h
  cases h6 : matchAbbrList monthAbbrs r5 0 with
  | none => rw [h6] at h; exact absurd h (by simp)
  | some mo =>
  rw [h6, Option.some_bind] at h
  cases h7 : parseWS mo.2 with
  | none => rw [h7] at h; exact absurd h (by simp)
  | some r7 =>
  rw [h7, Option.some_bind] at h
  cases h8 : parseYear4 r7 with
  | none => rw [h8] at h; exact absurd h (by simp)
  | some yr =>
  rw [h8, Option.some_bind] at h
  cases h9 : parseWS yr.2 with
  | none => rw [h9] at h; exact absurd h (by simp)
  | some r9 =>
  rw [h9, Option.some_bind] at h
  obtain ⟨hy, hm, hd, hy1, hdm, hh, hmi, hs59⟩ := strptimeTimePart_some h
  have hmo : mo.1 < 12 := by
    have := matchAbbrList_lt monthAbbrs r5 0 h6
    simpa [monthAbbrs] using this
  have hyb : yr.1 ≤ 9999 := parseYear4_bound h8
  have hdb : 1 ≤ dy.1 ∧ dy.1 ≤ 31 := by
    rcases parseNum2or1_bound h4 with hb | ⟨hb, hb9⟩
    · rw [Bool.and_eq_true, decide_eq_true_eq, decide_eq_true_eq] at hb
      exact hb
    · rw [decide_eq_true_eq] at hb
      exact ⟨hb, by omega⟩
  have hdd : dt.day ≤ 31 := by
    rw [hd]
    exact hdb.2
  refine ⟨?_, ?_, ?_, ?_, ?_, hdd, hh, hmi, hs59⟩
  · rw [hy]; exact hy1
  · rw [hy]; exact hyb
  · rw [hm]; omega
  · rw [hm]; omega
  · rw [hd]; exact hdb.1

/-! ## Claim C3 -/

/-- C3: date normalization is total — the sentinel maps to itself, any
raw value the RFC-822 parser rejects maps to `"Unknown"` (the caught
`ValueError`), and any parsed value maps to the canonical
`YYYY-MM-DD HH:MM:SS` rendering of exactly the parsed wall-clock
components (the stored offset is never applied), whose fields lie in
the ranges that make the padded rendering canonical. -/
theorem c3_normalize_pub_date (raw : String) :
    (raw = "Unknown" → normalize_pub_date raw = "Unknown") ∧
    (strptime_rfc822 raw = none → normalize_pub_date raw = "Unknown") ∧
    (∀ dt : PyDateTime, strptime_rfc822 raw = some dt → raw ≠ "Unknown" →
      normalize_pub_date raw =
        pad4 dt.year ++ "-" ++ pad2 dt.month ++ "-" ++ pad2 dt.day ++ " " ++
        pad2 dt.hour ++ ":" ++ pad2 dt.minute ++ ":" ++ pad2 dt.second ∧
      1 ≤ dt.year ∧ dt.year ≤ 9999 ∧ 1 ≤ dt.month ∧ dt.month ≤ 12 ∧
      1 ≤ dt.day ∧ dt.day ≤ 31 ∧ dt.hour ≤ 23 ∧ dt.minute ≤ 59 ∧
      dt.second ≤ 59) := by
  refine ⟨?_, ?_, ?_⟩
  · intro h
    simp [normalize_pub_date, h]
  · intro h
    by_cases hr : raw = "Unknown"
    · simp [normalize_pub_date, hr]
    · simp [normalize_pub_date, hr, h]
  · intro dt hdt hne
    refine ⟨?_, strptime_rfc822_bounds hdt⟩
    simp [normalize_pub_date, hne, hdt, strftime_canonical]

/-- C3, witness: the three branches at concrete inputs — the sentinel,
a malformed string, and a real RFC-822 timestamp whose offset is
dropped without converting the wall-clock fields. -/
theorem c3_witness :
    normalize_pub_date "Unknown" = "Unknown" ∧
    normalize_pub_date "yesterday" = "Unknown" ∧
    normalize_pub_date "Tue, 10 Sep 2024 12:34:56 +0530" =
      "2024-09-10 12:34:56" := by
  refine ⟨(c3_normalize_pub_date "Unknown").1 rfl,
          (c3_normalize_pub_date "yesterday").2.1 (by decide), ?_⟩
  have h := (c3_normalize_pub_date "Tue, 10 Sep 2024 12:34:56 +0530").2.2
    ⟨2024, 9, 10, 12, 34, 56⟩ (by decide) (by decide)
  exact h.1.trans (by decide)

/-! ## Claim C8 -/

/-- C8: language detection is deterministic — with the seed pinned at
module load, the result depends only on the text, not on the ambient
process randomness of either run — and a detector failure yields the
sentinel `"unknown"` instead of an exception. -/
theorem c8_detect_language_deterministic (rng₁ rng₂ : Nat) (t₁ t₂ : String)
    (h : t₁ = t₂) :
    detect_language rng₁ t₁ = detect_language rng₂ t₂ ∧
    (langdetect_detect detectorSeed rng₁ t₁ = none →
      detect_language rng₁ t₁ = "unknown") := by
  subst h
  refine ⟨rfl, ?_⟩
  intro hn
  simp [detect_language, hn]

/-- C8, witness: identical text under different process randomness. -/
theorem c8_witness :
    detect_language 3 "hello" = detect_language 99 "hello" ∧
    (langdetect_detect detectorSeed 3 "hello" = none →
      detect_language 3 "hello" = "unknown") :=
  c8_detect_language_deterministic 3 99 "hello" "hello" rfl

/-! ## Claim C1 -/

/-- C1: on every failure path — bozo document, network-transport
error, or any other unexpected error — `parse_rss_feed` returns the
empty record list (it never propagates the exception) and logs an
error-level line whose message carries both the source name and the
country of the feed descriptor. -/
theorem c1_parse_rss_feed_failure (fetch : String → FetchOutcome) (rng : Nat)
    (fi : FeedInfo) (h : fetchFails (fetch fi.url) = true) :
    (parse_rss_feed fetch rng fi).1 = [] ∧
    ∃ e ∈ (parse_rss_feed fetch rng fi).2, e.level = LogLevel.error ∧
      (∃ a b : String, e.msg = a ++ fi.source ++ b) ∧
      (∃ a b : String, e.msg = a ++ fi.country ++ b) := by
  cases hf : fetch fi.url with
  | parsed doc =>
    have hb : doc.bozo = true := by
      rw [hf] at h
      simpa [fetchFails] using h
    simp only [parse_rss_feed, hf]
    rw [if_pos hb]
    refine ⟨rfl, _, List.mem_cons_self _ _, rfl, ?_, ?_⟩
    · exact ⟨"Error parsing feed ",
        " (" ++ fi.country ++ "): " ++ doc.bozo_exception,
        by simp [String.append_assoc]⟩
    · exact ⟨"Error parsing feed " ++ fi.source ++ " (",
        "): " ++ doc.bozo_exception,
        by simp [String.append_assoc]⟩
  | urlError e =>
    simp only [parse_rss_feed, hf]
    refine ⟨by trivial, _, List.mem_cons_self _ _, rfl, ?_, ?_⟩
    · exact ⟨"Network error for ",
        " (" ++ fi.country ++ "): " ++ e,
        by simp [String.append_assoc]⟩
    · exact ⟨"Network error for " ++ fi.source ++ " (",
        "): " ++ e,
        by simp [String.append_assoc]⟩
  | unexpectedError e =>
    simp only [parse_rss_feed, hf]
    refine ⟨by trivial, _, List.mem_cons_self _ _, rfl, ?_, ?_⟩
    · exact ⟨"Unexpected error for ",
        " (" ++ fi.country ++ "): " ++ e,
        by simp [String.append_assoc]⟩
    · exact ⟨"Unexpected error for " ++ fi.source ++ " (",
        "): " ++ e,
        by simp [String.append_assoc]⟩

/-- C1, witness: a concrete unreachable feed — empty record list and a
tagged error line. -/
theorem c1_witness :
    (parse_rss_feed (fun _ => FetchOutcome.urlError "timed out") 0
      ⟨"France", "France 24", "https://www.france24.com/en/rss"⟩).1 = [] ∧
    ∃ e ∈ (parse_rss_feed (fun _ => FetchOutcome.urlError "timed out") 0
      ⟨"France", "France 24", "https://www.france24.com/en/rss"⟩).2,
      e.level = LogLevel.error ∧
      (∃ a b : String, e.msg = a ++ "France 24" ++ b) ∧
      (∃ a b : String, e.msg = a ++ "France" ++ b) :=
  c1_parse_rss_feed_failure (fun _ => FetchOutcome.urlError "timed out") 0
    ⟨"France", "France 24", "https://www.france24.com/en/rss"⟩ rfl

/-! ## Lemmas about first-occurrence deduplication -/

theorem dedupFirst_sublist {α κ : Type} [DecidableEq κ] (key : α → κ) :
    ∀ (l : List α) (seen : List κ), List.Sublist (dedupFirst key l seen) l := by
  intro l
  induction l with
  | nil => intro seen; exact List.Sublist.refl []
  | cons x rest ih =>
    intro seen
    rw [dedupFirst]
    split
    · exact (ih seen).cons x
    · exact (ih (key x :: seen)).cons₂ x

theorem mem_of_mem_dedupFirst {α κ : Type} [DecidableEq κ] {key : α → κ}
    {l : List α} {seen : List κ} {x : α} (h : x ∈ dedupFirst key l seen) :
    x ∈ l :=
  (dedupFirst_sublist key l seen).mem h

theorem key_not_seen_of_mem_dedupFirst {α κ : Type} [DecidableEq κ]
    {key : α → κ} :
    ∀ {l : List α} {seen : List κ} {x : α}, x ∈ dedupFirst key l seen →
      key x ∉ seen := by
  intro l
  induction l with
  | nil => intro seen x h; simp [dedupFirst] at h
  | cons y rest ih =>
    intro seen x h
    rw [dedupFirst] at h
    split at h
    · exact ih h
    · rename_i hy
      rcases List.mem_cons.mp h with h1 | h2
      · subst h1; exact hy
      · have := ih h2
        intro hc
        exact this (List.mem_cons_of_mem _ hc)

theorem dedupFirst_covers {α κ : Type} [DecidableEq κ] {key : α → κ} :
    ∀ {l : List α} {seen : List κ} {r : α}, r ∈ l → key r ∉ seen →
      ∃ s ∈ dedupFirst key l seen, key s = key r := by
  intro l
  induction l with
  | nil => intro seen r h; simp at h
  | cons x rest ih =>
    intro seen r hr hks
    rw [dedupFirst]
    split
    · rename_i hx
      rcases List.mem_cons.mp hr with h1 | h2
      · subst h1; exact absurd hx hks
      · exact ih h2 hks
    · rename_i hx
      by_cases hk : key r = key x
      · exact ⟨x, List.mem_cons_self _ _, hk.symm⟩
      · rcases List.mem_cons.mp hr with h1 | h2
        · subst h1; exact absurd rfl hk
        · obtain ⟨s, hs1, hs2⟩ := ih h2 (by
            intro hc
            rcases List.mem_cons.mp hc with hc1 | hc2
            · exact hk hc1
            · exact hks hc2)
          exact ⟨s, List.mem_cons_of_mem _ hs1, hs2⟩

theorem dedupFirst_first_occurrence {α κ : Type} [DecidableEq κ] {key : α → κ} :
    ∀ {l : List α} {seen : List κ} {r : α}, r ∈ dedupFirst key l seen →
      l.find? (fun x => decide (key x = key r)) = some r := by
  intro l
  induction l with
  | nil => intro seen r h; simp [dedupFirst] at h
  | cons x rest ih =>
    intro seen r h
    rw [dedupFirst] at h
    split at h
    · rename_i hx
      have hne : key x ≠ key r := by
        intro he
        exact key_not_seen_of_mem_dedupFirst h (he ▸ hx)
      rw [List.find?_cons_of_neg _ (by simpa using hne)]
      exact ih h
    · rename_i hx
      rcases List.mem_cons.mp h with h1 | h2
      · subst h1
        rw [List.find?_cons_of_pos _ (by simp)]
      · have hns := key_not_seen_of_mem_dedupFirst h2
        have hne : key x ≠ key r := by
          intro he
          exact hns (he ▸ List.mem_cons_self _ _)
        rw [List.find?_cons_of_neg _ (by simpa using hne)]
        exact ih h2

theorem dedupFirst_pairwise {α κ : Type} [DecidableEq κ] (key : α → κ) :
    ∀ (l : List α) (seen : List κ),
      (dedupFirst key l seen).Pairwise (fun a b => key a ≠ key b) := by
  intro l
  induction l with
  | nil => intro seen; simp [dedupFirst]
  | cons x rest ih =>
    intro seen
    rw [dedupFirst]
    split
    · exact ih seen
    · refine List.Pairwise.cons ?_ (ih (key x :: seen))
      intro b hb he
      exact key_not_seen_of_mem_dedupFirst hb (he ▸ List.mem_cons_self _ _)

theorem dedupFirst_of_pairwise {α κ : Type} [DecidableEq κ] {key : α → κ} :
    ∀ {m : List α} {seen : List κ},
      m.Pairwise (fun a b => key a ≠ key b) → (∀ x ∈ m, key x ∉ seen) →
      dedupFirst key m seen = m := by
  intro m
  induction m with
  | nil => intro seen _ _; rfl
  | cons x rest ih =>
    intro seen hp hs
    rw [dedupFirst]
    rw [if_neg (hs x (List.mem_cons_self _ _))]
    refine congrArg (x :: ·) (ih hp.of_cons ?_)
    intro y hy hc
    rcases List.mem_cons.mp hc with h1 | h2
    · exact (List.pairwise_cons.mp hp).1 y hy h1.symm
    · exact hs y (List.mem_cons_of_mem _ hy) h2

theorem dedupFirst_idem {α κ : Type} [DecidableEq κ] (key : α → κ)
    (l : List α) :
    dedupFirst key (dedupFirst key l []) [] = dedupFirst key l [] :=
  dedupFirst_of_pairwise (dedupFirst_pairwise key l []) (by simp)

/-! ## Claim C4 -/

/-- C4: both writers deduplicate by `(title, url)` keeping exactly the
first occurrence in input order: the retained list is a sublist of the
input, every retained record is the first record of its key, every
input key survives, no two retained records share a key, deduplication
is idempotent, and (for nonempty input, when no `KeyError` fires) the
tabular writer writes exactly this list while the store writer appends
exactly this list. -/
theorem c4_dedup_first_occurrence (data : List NewsRecord) :
    List.Sublist (drop_duplicates data) data ∧
    (∀ r ∈ drop_duplicates data,
      data.find? (fun x => decide (dedupKey x = dedupKey r)) = some r) ∧
    (∀ r ∈ data, ∃ s ∈ drop_duplicates data, dedupKey s = dedupKey r) ∧
    (drop_duplicates data).Pairwise (fun a b => dedupKey a ≠ dedupKey b) ∧
    drop_duplicates (drop_duplicates data) = drop_duplicates data ∧
    (∀ file, data ≠ [] →
      save_to_csv data file =
        .ok (drop_duplicates data, (drop_duplicates data).length)) ∧
    (∀ table, data ≠ [] →
      save_to_sqlite data table =
        .ok (table ++ drop_duplicates data, (drop_duplicates data).length)) := by
  refine ⟨dedupFirst_sublist dedupKey data [],
    fun r hr => dedupFirst_first_occurrence hr,
    fun r hr => dedupFirst_covers hr (by simp),
    dedupFirst_pairwise dedupKey data [],
    dedupFirst_idem dedupKey data, ?_, ?_⟩
  · intro file hne
    cases data with
    | nil => exact absurd rfl hne
    | cons x xs =>
      have hcol : (["title", "url"].all (frameColumns (x :: xs)).contains) = true := rfl
      unfold save_to_csv
      rw [if_pos hcol]
  · intro table hne
    cases data with
    | nil => exact absurd rfl hne
    | cons x xs =>
      have hcol : (["title", "url"].all (frameColumns (x :: xs)).contains) = true := rfl
      unfold save_to_sqlite
      rw [if_pos hcol]

/-- C4, witness: two records with equal `(title, url)` but different
descriptions — the second one's key is still represented, and both
writers emit the deduplicated batch. -/
theorem c4_witness :
    (∃ s ∈ drop_duplicates
        [⟨"UK", "BBC News", "t", "Unknown", "d1", "u", "en"⟩,
         ⟨"UK", "BBC News", "t", "Unknown", "d2", "u", "en"⟩],
      dedupKey s = dedupKey ⟨"UK", "BBC News", "t", "Unknown", "d2", "u", "en"⟩) ∧
    save_to_csv
        [⟨"UK", "BBC News", "t", "Unknown", "d1", "u", "en"⟩,
         ⟨"UK", "BBC News", "t", "Unknown", "d2", "u", "en"⟩] [] =
      .ok (drop_duplicates
        [⟨"UK", "BBC News", "t", "Unknown", "d1", "u", "en"⟩,
         ⟨"UK", "BBC News", "t", "Unknown", "d2", "u", "en"⟩],
        (drop_duplicates
        [⟨"UK", "BBC News", "t", "Unknown", "d1", "u", "en"⟩,
         ⟨"UK", "BBC News", "t", "Unknown", "d2", "u", "en"⟩]).length) := by
  have h := c4_dedup_first_occurrence
    [⟨"UK", "BBC News", "t", "Unknown", "d1", "u", "en"⟩,
     ⟨"UK", "BBC News", "t", "Unknown", "d2", "u", "en"⟩]
  exact ⟨h.2.2.1 ⟨"UK", "BBC News", "t", "Unknown", "d2", "u", "en"⟩ (by simp),
         h.2.2.2.2.2.1 [] (by simp)⟩

/-! ## Claim C5 -/

/-- C5: running the persistence stage twice on the same nonempty batch
leaves the tabular file's content (hence row count) unchanged, because
each run overwrites it with the same deduplicated batch, while the
relational table doubles, because each run appends the deduplicated
batch without deduplicating against previously stored rows. -/
theorem c5_two_runs (data : List NewsRecord) (file0 : List NewsRecord)
    (h : data ≠ []) :
    save_to_csv data file0 =
      .ok (drop_duplicates data, (drop_duplicates data).length) ∧
    save_to_csv data (drop_duplicates data) =
      .ok (drop_duplicates data, (drop_duplicates data).length) ∧
    save_to_sqlite data [] =
      .ok (drop_duplicates data, (drop_duplicates data).length) ∧
    save_to_sqlite data (drop_duplicates data) =
      .ok (drop_duplicates data ++ drop_duplicates data,
           (drop_duplicates data).length) ∧
    (drop_duplicates data ++ drop_duplicates data).length =
      2 * (drop_duplicates data).length := by
  cases data with
  | nil => exact absurd rfl h
  | cons x xs =>
    have hcol : (["title", "url"].all (frameColumns (x :: xs)).contains) = true := rfl
    refine ⟨?_, ?_, ?_, ?_, ?_⟩
    · unfold save_to_csv
      rw [if_pos hcol]
    · unfold save_to_csv
      rw [if_pos hcol]
    · unfold save_to_sqlite
      rw [if_pos hcol, List.nil_append]
    · unfold save_to_sqlite
      rw [if_pos hcol]
    · rw [List.length_append, two_mul]

/-- C5, witness: a concrete one-record batch run twice. -/
theorem c5_witness :
    save_to_sqlite [⟨"UK", "BBC News", "t", "Unknown", "d", "u", "en"⟩]
      (drop_duplicates [⟨"UK", "BBC News", "t", "Unknown", "d", "u", "en"⟩]) =
      .ok (drop_duplicates [⟨"UK", "BBC News", "t", "Unknown", "d", "u", "en"⟩] ++
           drop_duplicates [⟨"UK", "BBC News", "t", "Unknown", "d", "u", "en"⟩],
           (drop_duplicates [⟨"UK", "BBC News", "t", "Unknown", "d", "u", "en"⟩]).length) ∧
    (drop_duplicates [⟨"UK", "BBC News", "t", "Unknown", "d", "u", "en"⟩] ++
     drop_duplicates [⟨"UK", "BBC News", "t", "Unknown", "d", "u", "en"⟩]).length =
      2 * (drop_duplicates [⟨"UK", "BBC News", "t", "Unknown", "d", "u", "en"⟩]).length := by
  have h := c5_two_runs [⟨"UK", "BBC News", "t", "Unknown", "d", "u", "en"⟩] []
    (by simp)
  exact ⟨h.2.2.2.1, h.2.2.2.2⟩

/-! ## Claim C9 -/

/-- C9: on an empty accumulated record list all three frame-based
operations raise (`KeyError`: the empty frame has no columns for the
dedup subset or the groupby keys) instead of producing empty outputs,
so the run aborts at the persistence stage. -/
theorem c9_empty_batch_raises (file table : List NewsRecord) :
    save_to_csv [] file = .error "KeyError: title, url not in columns" ∧
    save_to_sqlite [] table = .error "KeyError: title, url not in columns" ∧
    generate_summary [] = .error "KeyError: country" :=
  ⟨rfl, rfl, rfl⟩

/-! ## Claim C6 -/

/-- C6: the summary is computed from the full, non-deduplicated record
list — each group's `total_articles` counts every record with that
`(country, source)` pair, so records agreeing on `(title, url)` are
counted separately; every record's pair has a group; and the constant
annotation string is attached to every group. -/
theorem c6_summary_full_counts (data : List NewsRecord) (h : data ≠ []) :
    ∃ l, generate_summary data = .ok l ∧
      (∀ e ∈ l, e.total_articles =
        (data.filter fun r => decide (groupKey r = (e.country, e.source))).length ∧
        e.historical_data = historicalNote) ∧
      (∀ r ∈ data, ∃ e ∈ l, e.country = r.country ∧ e.source = r.source) := by
  cases data with
  | nil => exact absurd rfl h
  | cons x xs =>
  have hcol : (["country", "source"].all (frameColumns (x :: xs)).contains) = true := rfl
  refine ⟨_, by unfold generate_summary; rw [if_pos hcol], ?_, ?_⟩
  · intro e he
    rw [List.mem_map] at he
    obtain ⟨k, _, hk⟩ := he
    subst hk
    exact ⟨rfl, rfl⟩
  · intro r hr
    have hk : groupKey r ∈ groupKeys (x :: xs) := by
      have hcov : ∃ s ∈ dedupFirst (id : String × String → String × String)
          ((x :: xs).map groupKey) [], id s = id (groupKey r) :=
        dedupFirst_covers (List.mem_map_of_mem groupKey hr)
          (List.not_mem_nil _)
      obtain ⟨s', hs1, hs2⟩ := hcov
      have hs3 : s' = groupKey r := hs2
      exact hs3 ▸ hs1
    have hk2 : groupKey r ∈ List.insertionSort keyLe (groupKeys (x :: xs)) :=
      (List.perm_insertionSort keyLe (groupKeys (x :: xs))).symm.subset hk
    refine ⟨⟨(groupKey r).1, (groupKey r).2,
      ((x :: xs).filter fun q => decide (groupKey q = groupKey r)).length,
      historicalNote⟩, ?_, rfl, rfl⟩
    rw [List.mem_map]
    exact ⟨groupKey r, hk2, rfl⟩

/-- C6, witness: two entries with identical `(title, url)` and
different descriptions — the summary still counts both. -/
theorem c6_witness :
    ∃ l, generate_summary
        [⟨"UK", "BBC News", "t", "Unknown", "d1", "u", "en"⟩,
         ⟨"UK", "BBC News", "t", "Unknown", "d2", "u", "en"⟩] = .ok l ∧
      (∀ e ∈ l, e.total_articles =
        ([⟨"UK", "BBC News", "t", "Unknown", "d1", "u", "en"⟩,
          ⟨"UK", "BBC News", "t", "Unknown", "d2", "u", "en"⟩].filter
            fun r : NewsRecord => decide (groupKey r = (e.country, e.source))).length ∧
        e.historical_data = historicalNote) ∧
      (∀ r ∈ [⟨"UK", "BBC News", "t", "Unknown", "d1", "u", "en"⟩,
              ⟨"UK", "BBC News", "t", "Unknown", "d2", "u", "en"⟩],
        ∃ e ∈ l, e.country = NewsRecord.country r ∧ e.source = NewsRecord.source r) :=
  c6_summary_full_counts
    [⟨"UK", "BBC News", "t", "Unknown", "d1", "u", "en"⟩,
     ⟨"UK", "BBC News", "t", "Unknown", "d2", "u", "en"⟩] (by simp)

/-! ## Claim C10 -/

theorem keyLt_of_keyLe_ne {a b : String × String} (h : keyLe a b)
    (hne : a ≠ b) : keyLt a b := by
  rcases h with h1 | ⟨he, hle⟩
  · exact Or.inl h1
  · refine Or.inr ⟨he, lt_of_le_of_ne hle ?_⟩
    intro h2
    exact hne (Prod.ext he h2)

/-- C10: for nonempty input the summary groups come out sorted in
strictly increasing lexicographic order of the `(country, source)`
pair (pandas `groupby` sorts its keys), not in first-seen order. -/
theorem c10_summary_sorted (data : List NewsRecord) (h : data ≠ []) :
    ∃ l, generate_summary data = .ok l ∧
      (l.map fun e => (e.country, e.source)).Pairwise keyLt := by
  cases data with
  | nil => exact absurd rfl h
  | cons x xs =>
  have hcol : (["country", "source"].all (frameColumns (x :: xs)).contains) = true := rfl
  refine ⟨_, by unfold generate_summary; rw [if_pos hcol], ?_⟩
  rw [List.map_map]
  have hfuse : ((fun e : SummaryRecord => (e.country, e.source)) ∘
      (fun k : String × String =>
        (⟨k.1, k.2, ((x :: xs).filter fun r => decide (groupKey r = k)).length,
          historicalNote⟩ : SummaryRecord))) = id := by
    funext k
    rfl
  rw [hfuse, List.map_id]
  have hks : (groupKeys (x :: xs)).Nodup :=
    dedupFirst_pairwise id ((x :: xs).map groupKey) []
  have hsorted := List.sorted_insertionSort keyLe (groupKeys (x :: xs))
  have hnodup : (List.insertionSort keyLe (groupKeys (x :: xs))).Nodup :=
    (List.perm_insertionSort keyLe (groupKeys (x :: xs))).symm.nodup hks
  exact (hsorted.and hnodup).imp fun h => keyLt_of_keyLe_ne h.1 h.2

/-- C10, witness: two records from distinct sources — the emitted
groups are strictly sorted by `(country, source)`. -/
theorem c10_witness :
    ∃ l, generate_summary
        [⟨"UK", "Reuters", "t1", "Unknown", "d", "u1", "en"⟩,
         ⟨"France", "AFP", "t2", "Unknown", "d", "u2", "fr"⟩] = .ok l ∧
      (l.map fun e => (e.country, e.source)).Pairwise keyLt :=
  c10_summary_sorted
    [⟨"UK", "Reuters", "t1", "Unknown", "d", "u1", "en"⟩,
     ⟨"France", "AFP", "t2", "Unknown", "d", "u2", "fr"⟩] (by simp)

end WebScraper
